import Mathlib

/-
Verification of the macrobie binding engine (macrobie.py): a shallow
embedding of the device-identity resolver, the layered event-dispatch
state machine, the CSV persistence layer and the save/load config
functions, together with proofs of the specification's claims about them.

Modelling conventions:
* Python exceptions are modelled with `Option`: a function that can raise
  returns `none` on the raising path.
* A Python value that can be either a str or an int (a binding row's
  event payload: keycodes are strings, live-captured scancodes are ints)
  is modelled by `PyVal`; Python's cross-type `==` is `False`, which is
  exactly structural equality on `PyVal`.
* A CSV file is modelled at the level the `csv` module presents it:
  a list of records, each a list of string fields.  `csv.writer`
  stringifies non-string cells with `str`, modelled by `PyVal.asCsv`.
* The external trigger sink (`subprocess.run(["autokey-run", flag, title],
  capture_output=True, text=True)`) is modelled per the spec's collaborator
  contract as a total oracle from an argument vector to a captured outcome;
  the source binds none of the call's result, so the embedding discards it.
-/

namespace Macrobie

/-- A dynamically typed Python scalar as it appears in a binding row's
event payload: a string (keycode, or any CSV-loaded field) or an int
(a live-captured scancode).  Structural equality is Python `==`:
comparisons across the two types are `False`. -/
inductive PyVal where
  | str (s : String)
  | int (n : Int)
  deriving DecidableEq, Repr

/-- How `csv.writer` renders a cell: strings verbatim, ints via `str`. -/
def PyVal.asCsv : PyVal → String
  | .str s => s
  | .int n => toString n

/-- Whether a `PyVal` is a string (the shape of every CSV-loaded field). -/
def PyVal.isStr : PyVal → Bool
  | .str _ => true
  | .int _ => false

/-- The fields of an evdev `KeyEvent` that `BindingRow.eventMatch` reads. -/
structure KeyEvent where
  keycode : String
  scancode : Int
  keystate : Nat
  deriving DecidableEq, Repr

/-- `KeyEvent.key_down` in evdev. -/
def keyDownState : Nat := 1

/-- A categorized evdev input event: either a key event or anything else
(relative axis, absolute axis, synchronization, LED...), which
`BindingRow.eventMatch` never matches (`type(evdev_event) is KeyEvent`). -/
inductive InputEvt where
  | key (k : KeyEvent)
  | nonKey
  deriving DecidableEq, Repr

/-- The observable fields of a live evdev device handle that
`DeviceSearch.get` compares against. -/
structure Candidate where
  name : String
  phys : String
  deriving DecidableEq, Repr

/-- `DeviceSearch` (the spec's DeviceIdentity): a serializable descriptor
re-locating a physical device.  `search_type` is `"name"`
(ByNameAndLocalAddress), `"phys"` (ByFullAddress) or anything else,
treated as `"both"` (ByBoth) by the resolver's `else` branch.
In Python `name` and `phys` start as `None`; a valid descriptor (one that
was captured or deserialized) has strings, so the fields are `String`
here with `""` standing for the never-matching initial `None`. -/
structure DeviceSearch where
  version : String
  search_type : String
  name : String
  phys : String
  deriving DecidableEq, Repr

/-- The `DeviceSearch.__init__` state: version "version-1", mode "name",
name and phys unset. -/
def DeviceSearch.init : DeviceSearch :=
  { version := "version-1", search_type := "name", name := "", phys := "" }

/-- `DeviceSearch.wRow`: the serialized device record. -/
def DeviceSearch.wRow (s : DeviceSearch) : List String :=
  ["device", s.version, s.search_type, s.name, s.phys]

/-- `DeviceSearch.rRow`: raises unless the record's tag is "device"
(and Python raises IndexError on a record of fewer than 5 fields). -/
def DeviceSearch.rRow (row : List String) : Option DeviceSearch :=
  match row with
  | tag :: v :: st :: nm :: ph :: _ =>
      if tag = "device" then some { version := v, search_type := st, name := nm, phys := ph }
      else none
  | _ => none

/-- Python `str.split` with a one-character separator, over the
character list: every occurrence splits, empty segments are kept, and
the empty string yields one empty segment. -/
def pySplitChars (sep : Char) : List Char → List (List Char)
  | [] => [[]]
  | c :: rest =>
      match pySplitChars sep rest with
      | [] => [[]]
      | seg :: segs => if c = sep then [] :: seg :: segs else (c :: seg) :: segs

/-- Python `s.split(sep)[-1]` for a one-character separator. -/
def pyLastSegment (sep : Char) (s : String) : String :=
  ((pySplitChars sep s.data).getLastD []).asString

/-- Python `str.endswith`: the candidate suffix's characters are a
suffix of the string's characters. -/
def pyEndsWith (s suffix : String) : Bool :=
  suffix.data.isSuffixOf s.data

/-- The predicate `DeviceSearch.get` scans with, split out per mode:
"name" compares the name and asks that the candidate's full address end
with the last "/"-separated segment of the stored address; "phys"
compares the full address; any other mode compares both exactly. -/
def DeviceSearch.qualifies (s : DeviceSearch) (c : Candidate) : Bool :=
  if s.search_type = "name" then
    c.name = s.name && pyEndsWith c.phys (pyLastSegment '/' s.phys)
  else if s.search_type = "phys" then
    c.phys = s.phys
  else
    c.name = s.name && c.phys = s.phys

/-- `DeviceSearch.get`: scan the enumerated devices in order and return
the first match for the stored mode; falling off every loop returns
Python `None`, modelled as `none`. -/
def DeviceSearch.get (s : DeviceSearch) (all_devices : List Candidate) : Option Candidate :=
  if s.search_type = "name" then
    let phys_last := pyLastSegment '/' s.phys
    all_devices.find? (fun n => n.name = s.name && pyEndsWith n.phys phys_last)
  else if s.search_type = "phys" then
    all_devices.find? (fun n => n.phys = s.phys)
  else
    all_devices.find? (fun n => n.name = s.name && n.phys = s.phys)

/-- `BindingRow`: one declarative rule.  All fields other than
`event_data` are always strings in the source (they come from `input()`
or from CSV); `event_data` alone can be a live int scancode. -/
structure BindingRow where
  layer : String
  event_type : String
  event_data : PyVal
  trigger_type : String
  trigger_data : String
  deriving DecidableEq, Repr

/-- `BindingRow.eventMatch`: only a `KeyEvent` can match
(`type(evdev_event) is KeyEvent`); "keydown" compares the keycode,
"scandown" the scancode, each additionally requiring the key-down
state; any other `event_type` returns False. -/
def BindingRow.eventMatch (r : BindingRow) (e : InputEvt) : Bool :=
  match e with
  | .key k =>
      if r.event_type = "keydown" then
        PyVal.str k.keycode = r.event_data && k.keystate = keyDownState
      else if r.event_type = "scandown" then
        PyVal.int k.scancode = r.event_data && k.keystate = keyDownState
      else false
  | .nonKey => false

/-- The captured outcome of one external sink call, per the spec's
collaborator contract (a synchronous call returning an exit status and
captured output, none of which the engine reads). -/
structure SinkOutcome where
  exitCode : Int
  stdout : String
  stderr : String

/-- The external trigger sink as an oracle: argument vector to outcome. -/
def Sink : Type := List String → SinkOutcome

/-- `DeviceTable`: a device identity, a display name (`filename`), the
active layer state and the ordered binding rows. -/
structure DeviceTable where
  filename : String
  search : DeviceSearch
  layer : String
  binding : List BindingRow
  deriving DecidableEq, Repr

/-- The `DeviceTable.__init__` state. -/
def DeviceTable.init : DeviceTable :=
  { filename := "new-device", search := DeviceSearch.init
    layer := "default", binding := [] }

/-- `BindingRow.trigger`: "phrase"/"script"/"folder" each run
`autokey-run` with the matching flag, capture and discard its output
(the `subprocess.run` result is not bound to anything in the source);
"assign_layer" mutates the parent table's layer instead and makes no
external call.  Returns the updated parent and the list of argument
vectors invoked. -/
def BindingRow.trigger (sink : Sink) (r : BindingRow) (parent_device : DeviceTable) :
    DeviceTable × List (List String) :=
  if r.trigger_type = "phrase" then
    let argv := ["autokey-run", "-p", r.trigger_data]
    let _ := sink argv
    (parent_device, [argv])
  else if r.trigger_type = "script" then
    let argv := ["autokey-run", "-s", r.trigger_data]
    let _ := sink argv
    (parent_device, [argv])
  else if r.trigger_type = "folder" then
    let argv := ["autokey-run", "-f", r.trigger_data]
    let _ := sink argv
    (parent_device, [argv])
  else if r.trigger_type = "assign_layer" then
    ({ parent_device with layer := r.trigger_data }, [])
  else
    (parent_device, [])

/-- The loop body of `DeviceTable.eventMatch`: walk the rows, firing each
row whose layer equals the table's layer at that moment and whose
pattern matches, threading the table state (`trigger` can change the
layer) and accumulating the fired rows and the sink calls.  The source
iterates over `self.binding`, which `trigger` never modifies, so the row
list walked here is the table's original row list. -/
def eventMatchGo (sink : Sink) (e : InputEvt) :
    List BindingRow → DeviceTable → List BindingRow → List (List String) →
    DeviceTable × List BindingRow × List (List String)
  | [], t, ans, calls => (t, ans, calls)
  | n :: rest, t, ans, calls =>
      if n.layer = t.layer then
        if n.eventMatch e then
          let (t', cs) := n.trigger sink t
          eventMatchGo sink e rest t' (ans ++ [n]) (calls ++ cs)
        else
          eventMatchGo sink e rest t ans calls
      else
        eventMatchGo sink e rest t ans calls

/-- `DeviceTable.eventMatch`: returns the updated table, the fired rows
in firing order (the source's `ans`) and the trace of sink calls. -/
def DeviceTable.eventMatch (sink : Sink) (t : DeviceTable) (e : InputEvt) :
    DeviceTable × List BindingRow × List (List String) :=
  eventMatchGo sink e t.binding t [] []

/-- `BindingRow.wRow`: the serialized binding record.  `csv.writer`
stringifies the one possibly-non-string cell with `str`. -/
def BindingRow.wRow (r : BindingRow) : List String :=
  ["binding", r.layer, r.event_type, r.event_data.asCsv, r.trigger_type, r.trigger_data]

/-- `BindingRow.rRow`: reads fields 1..5 of the record (Python raises
IndexError on a record of fewer than 6 fields); every field read from
CSV is a string. -/
def BindingRow.rRow (v : List String) : Option BindingRow :=
  match v with
  | _ :: l :: et :: ed :: tt :: td :: _ =>
      some { layer := l, event_type := et, event_data := .str ed
             trigger_type := tt, trigger_data := td }
  | _ => none

/-- One iteration of the `DeviceTable.rCsv` reader loop: a non-empty
record tagged "binding" parses and appends a row, one tagged "device"
parses and replaces the identity; any other record is skipped. -/
def DeviceTable.rCsvStep (t : DeviceTable) (row : List String) : Option DeviceTable :=
  if row.length > 0 then
    if row.headD "" = "binding" then
      (BindingRow.rRow row).map (fun b => { t with binding := t.binding ++ [b] })
    else if row.headD "" = "device" then
      (DeviceSearch.rRow row).map (fun s => { t with search := s })
    else some t
  else some t

/-- `DeviceTable.rCsv`: set the display name to the file's stem, clear
the rows, then fold the reader loop over the file's records.  A raising
iteration aborts the whole read (`none`). -/
def DeviceTable.rCsv (t : DeviceTable) (stem : String) (file : List (List String)) :
    Option DeviceTable :=
  file.foldlM DeviceTable.rCsvStep { t with filename := stem, binding := [] }

/-- `DeviceTable.wCsv`: the device record followed by the binding
records in stored order. -/
def DeviceTable.wCsv (t : DeviceTable) : List (List String) :=
  t.search.wRow :: t.binding.map BindingRow.wRow

/-- The disambiguation candidate list built by `disambig`: the wanted
name, then `want-2` .. `want-99` (Python `range(2, 100)`). -/
def dtab (want : String) : List String :=
  want :: (List.range' 2 98).map (fun n => want ++ ("-" ++ toString n))

/-- The `for n in have: dtab.remove(n)` loop of `disambig`:
`list.remove` deletes the first occurrence and raises ValueError when
the element is absent. -/
def removeEach (dt : List String) : List String → Option (List String)
  | [] => some dt
  | n :: rest => if n ∈ dt then removeEach (dt.erase n) rest else none

/-- `disambig`: build the candidate list, remove every already-used
name, return the first remaining candidate (`dtab[0]` raises IndexError
when the 99 candidates are exhausted). -/
def disambig (want : String) (used : List String) : Option String :=
  (removeEach (dtab want) used).bind List.head?

/-- A filesystem effect of `save_config`: writing a device file or
deleting one (names are stems; the ".csv" suffix is uniform). -/
inductive FsEvent where
  | write (name : String)
  | delete (name : String)
  deriving DecidableEq, Repr

/-- The first loop of `save_config` over the devices: rename on a
collision with an already-processed name (a raising `disambig`
propagates), drop the (possibly renamed) name from the pending-deletion
list, record the name as processed and write the file.  Returns the
write events in order and the pending-deletion list as it stands after
the loop. -/
def saveLoop : List DeviceTable → List String → List String →
    Option (List FsEvent × List String)
  | [], _, files_to_destroy => some ([], files_to_destroy)
  | d :: rest, files_to_add, files_to_destroy =>
      (if d.filename ∈ files_to_add then disambig d.filename files_to_add
       else some d.filename).bind fun name =>
        let ftd := if name ∈ files_to_destroy then files_to_destroy.erase name
                   else files_to_destroy
        (saveLoop rest (files_to_add ++ [name]) ftd).map fun (evs, ftd2) =>
          (FsEvent.write name :: evs, ftd2)

/-- `save_config`: write every table (first loop), then delete the file
of every name still pending deletion (second loop).  The result is the
ordered trace of filesystem effects; `none` models an exception
escaping (the source has no handler around either loop). -/
def save_config (devices : List DeviceTable) (files_to_destroy : List String) :
    Option (List FsEvent) :=
  (saveLoop devices [] files_to_destroy).map fun (evs, ftd2) =>
    evs ++ ftd2.map FsEvent.delete

/-- The devices directory as a set of file stems, and one `save_config`
effect applied to it.  `os.remove` of an absent file would raise and
abort the deletion loop early; applying only a prefix of the deletions
never deletes more than this total model does. -/
def applyEvent (disk : Finset String) : FsEvent → Finset String
  | .write n => insert n disk
  | .delete n => disk.erase n

/-- A whole effect trace applied to the devices directory. -/
def applyEvents (disk : Finset String) (evs : List FsEvent) : Finset String :=
  evs.foldl applyEvent disk

/-- `Path(fpath).stem` for the names `load_config` globs: the filename
without its ".csv" suffix (4 characters). -/
def csvStem (fname : String) : String :=
  (fname.data.take (fname.data.length - 4)).asString

/-- The `load_config` loop over the globbed files: read each file into
a fresh `DeviceTable` and append it to the results.  The loop has no
handler, so one raising `rCsv` aborts the whole load. -/
def loadFiles : List (String × List (List String)) → Option (List DeviceTable)
  | [] => some []
  | f :: rest =>
      (DeviceTable.init.rCsv (csvStem f.1) f.2).bind fun t =>
        (loadFiles rest).map fun ts => t :: ts

/-- `load_config`: glob the ".csv" files of the devices directory and
load each.  The directory is modelled as the listing the glob scans,
filename plus parsed record list per file; the glob keeps exactly the
files with the expected extension. -/
def load_config (dir : List (String × List (List String))) :
    Option (List DeviceTable) :=
  loadFiles (dir.filter (fun f => pyEndsWith f.1 ".csv"))

/-- Modelled from the spec (section 4.3), as the reference behaviour for
the dispatch-scan claims: scan the rows in stored order against an
evolving current layer; a row fires when its layer equals the current
layer and its pattern matches, and a fired assign-layer row replaces the
current layer for the rest of the scan. -/
def specScan (e : InputEvt) (layer : String) : List BindingRow → List BindingRow
  | [] => []
  | n :: rest =>
      if n.layer = layer ∧ n.eventMatch e then
        n :: specScan e (if n.trigger_type = "assign_layer" then n.trigger_data else layer) rest
      else
        specScan e layer rest

/-- The mid-dispatch example's first row: on the default layer, key A
switches the active layer to "work". -/
def exRowAssign : BindingRow :=
  { layer := "default", event_type := "keydown", event_data := .str "KEY_A"
    trigger_type := "assign_layer", trigger_data := "work" }

/-- The mid-dispatch example's second row: on the "work" layer, key A
triggers the phrase "P". -/
def exRowPhrase : BindingRow :=
  { layer := "work", event_type := "keydown", event_data := .str "KEY_A"
    trigger_type := "phrase", trigger_data := "P" }

/-- The mid-dispatch example's table, freshly loaded (active layer
"default"). -/
def exTable : DeviceTable :=
  { filename := "ex", search := DeviceSearch.init
    layer := "default", binding := [exRowAssign, exRowPhrase] }

/-- A keydown(A) event. -/
def exKeyA : InputEvt := .key { keycode := "KEY_A", scancode := 30, keystate := 1 }

/-- A sink whose every invocation fails (nonzero exit, error output). -/
def failingSink : Sink := fun _ => { exitCode := 1, stdout := "", stderr := "boom" }

/-- A sink whose every invocation succeeds. -/
def okSink : Sink := fun _ => { exitCode := 0, stdout := "", stderr := "" }

/-- A table with two rows on the same layer matching the same event. -/
def exTableTwo : DeviceTable :=
  { filename := "ex2", search := DeviceSearch.init, layer := "default"
    binding :=
      [{ layer := "default", event_type := "keydown", event_data := .str "KEY_A"
         trigger_type := "phrase", trigger_data := "P1" },
       { layer := "default", event_type := "keydown", event_data := .str "KEY_A"
         trigger_type := "script", trigger_data := "S1" }] }

/-- A valid saved table used by the round-trip and load examples. -/
def exSaved : DeviceTable :=
  { filename := "kbd", search := { version := "version-1", search_type := "name"
                                   name := "Foo", phys := "a/usb1/1-2:1.0" }
    layer := "default", binding := [exRowAssign, exRowPhrase] }

/-- A fresh table carrying only a display name, as `menus` builds them. -/
def named (s : String) : DeviceTable := { DeviceTable.init with filename := s }

/-- A live candidate whose address has the wrong local segment. -/
def exCandWrong : Candidate := { name := "Foo", phys := "usb1/1-3:1.0" }

/-- A live candidate matching `exSaved`'s identity by name and local
address suffix. -/
def exCandRight : Candidate := { name := "Foo", phys := "/dev/input/event3 usb1/1-2:1.0" }

/-- The suffix part of each non-first disambiguation candidate,
independent of the wanted name. -/
def suffixStrings : List String :=
  (List.range' 2 98).map (fun n => "-" ++ toString n)

/-- The table `load_config` produces from the file "kbd.csv" holding
`exSaved.wCsv`. -/
def exLoaded : DeviceTable :=
  { filename := "kbd", search := exSaved.search
    layer := "default", binding := exSaved.binding }

theorem trigger_fst (sink : Sink) (r : BindingRow) (t : DeviceTable) :
    (r.trigger sink t).1
      = if r.trigger_type = "assign_layer" then { t with layer := r.trigger_data } else t := by
  unfold BindingRow.trigger
  by_cases h1 : r.trigger_type = "phrase" <;>
    by_cases h2 : r.trigger_type = "script" <;>
      by_cases h3 : r.trigger_type = "folder" <;>
        by_cases h4 : r.trigger_type = "assign_layer" <;>
          simp_all

theorem trigger_binding (sink : Sink) (r : BindingRow) (t : DeviceTable) :
    (r.trigger sink t).1.binding = t.binding
      ∧ (r.trigger sink t).1.search = t.search
      ∧ (r.trigger sink t).1.filename = t.filename := by
  rw [trigger_fst]
  by_cases h : r.trigger_type = "assign_layer" <;> simp [h]

theorem trigger_layer_of_not_assign (sink : Sink) (r : BindingRow) (t : DeviceTable)
    (h : ¬ r.trigger_type = "assign_layer") : (r.trigger sink t).1.layer = t.layer := by
  rw [trigger_fst, if_neg h]

theorem eventMatchGo_fired (sink : Sink) (e : InputEvt) :
    ∀ (rows : List BindingRow) (t : DeviceTable) (ans : List BindingRow)
      (calls : List (List String)),
    (eventMatchGo sink e rows t ans calls).2.1 = ans ++ specScan e t.layer rows := by
  intro rows
  induction rows with
  | nil => intro t ans calls; simp [eventMatchGo, specScan]
  | cons n rest ih =>
      intro t ans calls
      by_cases hl : n.layer = t.layer
      · by_cases hm : n.eventMatch e
        · have hfire : n.layer = t.layer ∧ n.eventMatch e = true := ⟨hl, hm⟩
          simp only [eventMatchGo, specScan, if_pos hl, if_pos hm, if_pos hfire]
          rw [ih]
          have hlayer : ((n.trigger sink t).1).layer
              = if n.trigger_type = "assign_layer" then n.trigger_data else t.layer := by
            rw [trigger_fst]
            by_cases ha : n.trigger_type = "assign_layer" <;> simp [ha]
          rw [hlayer, List.append_assoc]
          rfl
        · have hnfire : ¬ (n.layer = t.layer ∧ n.eventMatch e = true) := by
            intro hc; exact hm hc.2
          simp only [eventMatchGo, specScan, if_pos hl, if_neg hm, if_neg hnfire]
          exact ih t ans calls
      · have hnfire : ¬ (n.layer = t.layer ∧ n.eventMatch e = true) := by
          intro hc; exact hl hc.1
        simp only [eventMatchGo, specScan, if_neg hl, if_neg hnfire]
        exact ih t ans calls

theorem eventMatchGo_frame (sink : Sink) (e : InputEvt) :
    ∀ (rows : List BindingRow) (t : DeviceTable) (ans : List BindingRow)
      (calls : List (List String)),
    (eventMatchGo sink e rows t ans calls).1.binding = t.binding
      ∧ (eventMatchGo sink e rows t ans calls).1.search = t.search
      ∧ (eventMatchGo sink e rows t ans calls).1.filename = t.filename := by
  intro rows
  induction rows with
  | nil => intro t ans calls; simp [eventMatchGo]
  | cons n rest ih =>
      intro t ans calls
      by_cases hl : n.layer = t.layer
      · by_cases hm : n.eventMatch e
        · simp only [eventMatchGo, if_pos hl, if_pos hm]
          have hfr := trigger_binding sink n t
          have hrec := ih ((n.trigger sink t).1) (ans ++ [n]) (calls ++ (n.trigger sink t).2)
          exact ⟨hfr.1 ▸ hrec.1, hfr.2.1 ▸ hrec.2.1, hfr.2.2 ▸ hrec.2.2⟩
        · simp only [eventMatchGo, if_pos hl, if_neg hm]
          exact ih t ans calls
      · simp only [eventMatchGo, if_neg hl]
        exact ih t ans calls

theorem eventMatchGo_layer_change (sink : Sink) (e : InputEvt) :
    ∀ (rows : List BindingRow) (t : DeviceTable) (ans : List BindingRow)
      (calls : List (List String)),
    (eventMatchGo sink e rows t ans calls).1.layer ≠ t.layer →
      ∃ r ∈ specScan e t.layer rows, r.trigger_type = "assign_layer" := by
  intro rows
  induction rows with
  | nil => intro t ans calls h; exact absurd rfl h
  | cons n rest ih =>
      intro t ans calls h
      by_cases hl : n.layer = t.layer
      · by_cases hm : n.eventMatch e
        · have hfire : n.layer = t.layer ∧ n.eventMatch e = true := ⟨hl, hm⟩
          by_cases ha : n.trigger_type = "assign_layer"
          · exact ⟨n, by simp [specScan, if_pos hfire], ha⟩
          · simp only [eventMatchGo, if_pos hl, if_pos hm] at h
            have hsame := trigger_layer_of_not_assign sink n t ha
            have hrec := ih ((n.trigger sink t).1) (ans ++ [n])
              (calls ++ (n.trigger sink t).2) (by rw [← hsame] at h; exact h)
            rw [hsame] at hrec
            obtain ⟨r, hr, hrt⟩ := hrec
            refine ⟨r, ?_, hrt⟩
            simp only [specScan, if_pos hfire, if_neg ha]
            exact List.mem_cons_of_mem _ hr
        · have hnfire : ¬ (n.layer = t.layer ∧ n.eventMatch e = true) := by
            intro hc; exact hm hc.2
          simp only [eventMatchGo, if_pos hl, if_neg hm] at h
          obtain ⟨r, hr, hrt⟩ := ih t ans calls h
          exact ⟨r, by simp only [specScan, if_neg hnfire]; exact hr, hrt⟩
      · have hnfire : ¬ (n.layer = t.layer ∧ n.eventMatch e = true) := by
          intro hc; exact hl hc.1
        simp only [eventMatchGo, if_neg hl] at h
        obtain ⟨r, hr, hrt⟩ := ih t ans calls h
        exact ⟨r, by simp only [specScan, if_neg hnfire]; exact hr, hrt⟩

theorem specScan_sublist (e : InputEvt) :
    ∀ (rows : List BindingRow) (layer : String), (specScan e layer rows).Sublist rows := by
  intro rows
  induction rows with
  | nil => intro layer; simp [specScan]
  | cons n rest ih =>
      intro layer
      by_cases hfire : n.layer = layer ∧ n.eventMatch e = true
      · simp only [specScan, if_pos hfire]
        exact List.Sublist.cons₂ n (ih _)
      · simp only [specScan, if_neg hfire]
        exact List.Sublist.cons n (ih layer)

theorem specScan_matches (e : InputEvt) :
    ∀ (rows : List BindingRow) (layer : String) (r : BindingRow),
      r ∈ specScan e layer rows → r.eventMatch e = true := by
  intro rows
  induction rows with
  | nil => intro layer r h; simp [specScan] at h
  | cons n rest ih =>
      intro layer r h
      by_cases hfire : n.layer = layer ∧ n.eventMatch e = true
      · simp only [specScan, if_pos hfire] at h
        rcases List.mem_cons.mp h with h1 | h2
        · exact h1 ▸ hfire.2
        · exact ih _ r h2
      · simp only [specScan, if_neg hfire] at h
        exact ih layer r h

/-- Claim C1: firing a row with trigger kind assign-layer assigns the
table's active layer to that row's trigger value immediately, so every
subsequent row of the same `eventMatch` scan is evaluated against the
new layer; in particular, for the table with rows
[(default, keydown A, assign-layer to "work"), (work, keydown A,
phrase "P")] and active layer "default", one keydown(A) dispatch fires
both rows and leaves the active layer at "work" (for every sink). -/
theorem eventMatch_assign_layer_immediate :
    (∀ (sink : Sink) (n : BindingRow) (rest : List BindingRow) (t : DeviceTable)
       (e : InputEvt) (ans : List BindingRow) (calls : List (List String)),
       n.layer = t.layer → n.eventMatch e = true → n.trigger_type = "assign_layer" →
       eventMatchGo sink e (n :: rest) t ans calls
         = eventMatchGo sink e rest { t with layer := n.trigger_data } (ans ++ [n]) calls)
    ∧ (∀ sink : Sink,
        (exTable.eventMatch sink exKeyA).1.layer = "work"
          ∧ (exTable.eventMatch sink exKeyA).2.1 = [exRowAssign, exRowPhrase]) := by
  constructor
  · intro sink n rest t e ans calls hl hm ha
    simp only [eventMatchGo, if_pos hl, if_pos hm]
    have ht : (n.trigger sink t).1 = { t with layer := n.trigger_data } := by
      rw [trigger_fst, if_pos ha]
    have hc : (n.trigger sink t).2 = [] := by
      unfold BindingRow.trigger
      rw [if_neg (by rw [ha]; decide), if_neg (by rw [ha]; decide),
        if_neg (by rw [ha]; decide), if_pos ha]
    rw [ht, hc, List.append_nil]
  · intro sink
    exact ⟨rfl, rfl⟩

/-- Witness for C1: the general conjunct applied to the example's first
row and the failing sink, with every hypothesis discharged there. -/
theorem eventMatch_assign_layer_immediate_witness :
    eventMatchGo failingSink exKeyA [exRowAssign, exRowPhrase] exTable [] []
      = eventMatchGo failingSink exKeyA [exRowPhrase]
          { exTable with layer := exRowAssign.trigger_data } ([] ++ [exRowAssign]) [] :=
  eventMatch_assign_layer_immediate.1 failingSink exRowAssign [exRowPhrase] exTable exKeyA
    [] [] rfl (by decide) rfl

/-- Claim C3: `eventMatch` scans the rows in stored order and fires
exactly the rows selected by the spec's scan (layer equal to the active
layer current at that row's evaluation, pattern matching the event),
appending each to the returned sequence in scan order; the fired
sequence is a sublist of the stored rows, and every fired row's pattern
matched the event (so a row on a non-active layer never fires). -/
theorem eventMatch_scan_spec (sink : Sink) (t : DeviceTable) (e : InputEvt) :
    (t.eventMatch sink e).2.1 = specScan e t.layer t.binding
      ∧ ((t.eventMatch sink e).2.1).Sublist t.binding
      ∧ (∀ r ∈ (t.eventMatch sink e).2.1, r.eventMatch e = true) := by
  have hf : (t.eventMatch sink e).2.1 = specScan e t.layer t.binding := by
    have := eventMatchGo_fired sink e t.binding t [] []
    simpa [DeviceTable.eventMatch] using this
  refine ⟨hf, ?_, ?_⟩
  · rw [hf]; exact specScan_sublist e t.binding t.layer
  · rw [hf]; exact fun r hr => specScan_matches e t.binding t.layer r hr

/-- Witness for C3: the multi-fire example, two rows on the active layer
matching the same event; both fire, in stored order. -/
theorem eventMatch_scan_spec_witness :
    (exTableTwo.eventMatch okSink exKeyA).2.1 = specScan exKeyA "default" exTableTwo.binding :=
  (eventMatch_scan_spec okSink exTableTwo exKeyA).1

/-- Claim C10: one `eventMatch` call mutates at most the active layer:
the rows, the device identity and the display name are returned
unchanged, and the layer differs from the initial one only if some
fired row of that call has trigger kind assign-layer. -/
theorem eventMatch_frame (sink : Sink) (t : DeviceTable) (e : InputEvt) :
    (t.eventMatch sink e).1.binding = t.binding
      ∧ (t.eventMatch sink e).1.search = t.search
      ∧ (t.eventMatch sink e).1.filename = t.filename
      ∧ ((t.eventMatch sink e).1.layer ≠ t.layer →
          ∃ r ∈ (t.eventMatch sink e).2.1, r.trigger_type = "assign_layer") := by
  have hfr := eventMatchGo_frame sink e t.binding t [] []
  refine ⟨hfr.1, hfr.2.1, hfr.2.2, ?_⟩
  intro hne
  have hch := eventMatchGo_layer_change sink e t.binding t [] [] hne
  have hf := eventMatchGo_fired sink e t.binding t [] []
  obtain ⟨r, hr, hrt⟩ := hch
  exact ⟨r, by rw [DeviceTable.eventMatch, hf]; simpa using hr, hrt⟩

/-- Witness for C10: the frame property at the mid-dispatch example,
whose layer does change; the assign-layer row is among the fired. -/
theorem eventMatch_frame_witness :
    (exTable.eventMatch okSink exKeyA).1.binding = exTable.binding
      ∧ (exTable.eventMatch okSink exKeyA).1.search = exTable.search
      ∧ (exTable.eventMatch okSink exKeyA).1.filename = exTable.filename
      ∧ ((exTable.eventMatch okSink exKeyA).1.layer ≠ exTable.layer →
          ∃ r ∈ (exTable.eventMatch okSink exKeyA).2.1, r.trigger_type = "assign_layer") :=
  eventMatch_frame okSink exTable exKeyA

theorem rRow_wRow (r : BindingRow) (h : r.event_data.isStr = true) :
    BindingRow.rRow r.wRow = some r := by
  cases r with
  | mk l et ed tt td =>
      cases ed with
      | str s => rfl
      | int n => simp [PyVal.isStr] at h

theorem rRowSearch_wRowSearch (s : DeviceSearch) :
    DeviceSearch.rRow s.wRow = some s := by
  cases s; rfl

theorem foldlM_rCsvStep_wRows :
    ∀ (rows : List BindingRow) (t : DeviceTable),
      (∀ r ∈ rows, r.event_data.isStr = true) →
      List.foldlM DeviceTable.rCsvStep t (rows.map BindingRow.wRow)
        = some { t with binding := t.binding ++ rows } := by
  intro rows
  induction rows with
  | nil => intro t h; simp
  | cons r rest ih =>
      intro t h
      have hstep : DeviceTable.rCsvStep t r.wRow
          = some { t with binding := t.binding ++ [r] } := by
        have hr := rRow_wRow r (h r (List.mem_cons_self r rest))
        simp only [DeviceTable.rCsvStep, BindingRow.wRow] at hr ⊢
        simp [hr]
      rw [List.map_cons, List.foldlM_cons, hstep]
      have hrec := ih { t with binding := t.binding ++ [r] }
        (fun x hx => h x (List.mem_cons_of_mem r hx))
      simp [hrec, List.append_assoc]

/-- Claim C2: writing a valid table with `wCsv` and re-reading it with
`rCsv` into a fresh table reproduces the device identity and every
binding row field-for-field, in the same order (validity: every
event payload is a string, as it is for any table that itself came from
disk or whose bindings were captured as keycodes; the re-read table's
display name is the file stem and its active layer restarts at
"default"). -/
theorem wCsv_rCsv_roundtrip (t : DeviceTable) (stem : String)
    (hv : ∀ r ∈ t.binding, r.event_data.isStr = true) :
    DeviceTable.init.rCsv stem t.wCsv
      = some { filename := stem, search := t.search
               layer := "default", binding := t.binding } := by
  unfold DeviceTable.rCsv DeviceTable.wCsv
  rw [List.foldlM_cons]
  have hdev : DeviceTable.rCsvStep
      { DeviceTable.init with filename := stem, binding := [] } t.search.wRow
      = some { filename := stem, search := t.search, layer := "default", binding := [] } := by
    have hs := rRowSearch_wRowSearch t.search
    simp only [DeviceTable.rCsvStep, DeviceSearch.wRow] at hs ⊢
    simp [hs, DeviceTable.init, DeviceSearch.init]
  rw [hdev]
  have hrows := foldlM_rCsvStep_wRows t.binding
    { filename := stem, search := t.search, layer := "default", binding := [] } hv
  simpa using hrows

/-- Witness for C2: the round trip of the concrete saved table. -/
theorem wCsv_rCsv_roundtrip_witness :
    DeviceTable.init.rCsv "kbd" exSaved.wCsv
      = some { filename := "kbd", search := exSaved.search
               layer := "default", binding := exSaved.binding } :=
  wCsv_rCsv_roundtrip exSaved "kbd" (by decide)

theorem get_eq_find (s : DeviceSearch) (devs : List Candidate) :
    s.get devs = devs.find? s.qualifies := by
  by_cases h1 : s.search_type = "name"
  · have hq : s.qualifies = fun c =>
        (decide (c.name = s.name) && pyEndsWith c.phys (pyLastSegment '/' s.phys)) := by
      funext c; simp [DeviceSearch.qualifies, h1]
    simp [DeviceSearch.get, h1, hq]
  · by_cases h2 : s.search_type = "phys"
    · have hq : s.qualifies = fun c => decide (c.phys = s.phys) := by
        funext c; simp [DeviceSearch.qualifies, h1, h2]
      simp [DeviceSearch.get, h1, h2, hq]
    · have hq : s.qualifies = fun c =>
          (decide (c.name = s.name) && decide (c.phys = s.phys)) := by
        funext c; simp [DeviceSearch.qualifies, h1, h2]
      simp [DeviceSearch.get, h1, h2, hq]

theorem find?_first {α : Type} (p : α → Bool) :
    ∀ (l : List α) (c : α), l.find? p = some c →
      c ∈ l ∧ p c = true ∧ ∃ pre post, l = pre ++ c :: post ∧ ∀ x ∈ pre, p x = false := by
  intro l
  induction l with
  | nil => intro c h; simp [List.find?] at h
  | cons a l ih =>
      intro c h
      by_cases ha : p a
      · rw [List.find?_cons_of_pos _ ha] at h
        cases h
        exact ⟨List.mem_cons_self a l, ha, [], l, rfl, by intro x hx; simp at hx⟩
      · rw [List.find?_cons_of_neg _ (by simpa using ha)] at h
        obtain ⟨hc, hp, pre, post, heq, hpre⟩ := ih c h
        refine ⟨List.mem_cons_of_mem a hc, hp, a :: pre, post, by rw [heq]; rfl, ?_⟩
        intro x hx
        rcases List.mem_cons.mp hx with h1 | h2
        · rw [h1]; simpa using ha
        · exact hpre x h2

/-- Claim C4: `DeviceSearch.get` (the DeviceIdentity resolver) equals a
first-match scan, in enumeration order, of the per-mode predicate
(ByNameAndLocalAddress: equal name and address ending with the last
"/"-segment of the stored address; ByFullAddress: exactly equal
address; ByBoth: both equal exactly); it returns `none`, not an
exception, exactly when no candidate qualifies, and a returned
candidate is a qualifying member before which no candidate qualifies. -/
theorem deviceSearch_get_first_match (s : DeviceSearch) (devs : List Candidate) :
    s.get devs = devs.find? s.qualifies
      ∧ (s.get devs = none ↔ ∀ c ∈ devs, s.qualifies c = false)
      ∧ (∀ c, s.get devs = some c →
          c ∈ devs ∧ s.qualifies c = true
            ∧ ∃ pre post, devs = pre ++ c :: post ∧ ∀ x ∈ pre, s.qualifies x = false) := by
  refine ⟨get_eq_find s devs, ?_, ?_⟩
  · rw [get_eq_find, List.find?_eq_none]
    constructor
    · intro h c hc; simpa using h c hc
    · intro h c hc; simp [h c hc]
  · intro c h
    exact find?_first s.qualifies devs c (by rw [← get_eq_find]; exact h)

/-- Witness for C4: resolving the saved identity against an enumeration
whose first candidate has the wrong local address and whose second
matches; the resolver returns the second. -/
theorem deviceSearch_get_first_match_witness :
    exCandRight ∈ [exCandWrong, exCandRight]
      ∧ exSaved.search.qualifies exCandRight = true
      ∧ ∃ pre post, [exCandWrong, exCandRight] = pre ++ exCandRight :: post
          ∧ ∀ x ∈ pre, exSaved.search.qualifies x = false :=
  (deviceSearch_get_first_match exSaved.search [exCandWrong, exCandRight]).2.2
    exCandRight (by decide)

theorem string_append_left_cancel {s a b : String} (h : s ++ a = s ++ b) : a = b := by
  apply String.ext
  have hd : (s ++ a).data = (s ++ b).data := by rw [h]
  rw [String.data_append, String.data_append] at hd
  exact List.append_cancel_left hd

set_option maxRecDepth 40000 in
theorem suffixStrings_nodup : suffixStrings.Nodup := by decide

theorem suffixStrings_len : ∀ s ∈ suffixStrings, 1 ≤ s.length := by decide

theorem dtab_eq (want : String) :
    dtab want = want :: suffixStrings.map (fun s => want ++ s) := by
  rw [dtab, suffixStrings, List.map_map]
  rfl

theorem dtab_nodup (want : String) : (dtab want).Nodup := by
  rw [dtab_eq]
  refine List.nodup_cons.mpr ⟨?_, ?_⟩
  · intro hmem
    obtain ⟨s, hs, heq⟩ := List.mem_map.mp hmem
    have hlen : (want ++ s).length = want.length := by rw [heq]
    rw [String.length_append] at hlen
    have := suffixStrings_len s hs
    omega
  · exact List.Nodup.map (fun a b hab => string_append_left_cancel hab) suffixStrings_nodup

theorem removeEach_some_mem :
    ∀ (used dt dt' : List String), removeEach dt used = some dt' → ∀ n ∈ used, n ∈ dt := by
  intro used
  induction used with
  | nil => intro dt dt' _ n hn; simp at hn
  | cons m rest ih =>
      intro dt dt' h n hn
      unfold removeEach at h
      by_cases hm : m ∈ dt
      · rw [if_pos hm] at h
        rcases List.mem_cons.mp hn with h1 | h2
        · exact h1 ▸ hm
        · exact List.erase_subset m dt (ih (dt.erase m) dt' h n h2)
      · rw [if_neg hm] at h
        exact absurd h (by simp)

theorem removeEach_none_of_not_mem :
    ∀ (used dt : List String) (n : String), n ∈ used → n ∉ dt →
      removeEach dt used = none := by
  intro used
  induction used with
  | nil => intro dt n hn _; simp at hn
  | cons m rest ih =>
      intro dt n hn hnot
      unfold removeEach
      by_cases hm : m ∈ dt
      · rw [if_pos hm]
        rcases List.mem_cons.mp hn with h1 | h2
        · exact absurd (h1 ▸ hm) hnot
        · exact ih (dt.erase m) n h2 (fun hc => hnot (List.erase_subset m dt hc))
      · rw [if_neg hm]

theorem erase_filter_contains (dt : List String) (hnd : dt.Nodup) (m : String)
    (ws : List String) :
    (dt.erase m).filter (fun x => !(ws.contains x))
      = dt.filter (fun x => !((m :: ws).contains x)) := by
  rw [List.Nodup.erase_eq_filter hnd, List.filter_filter]
  apply List.filter_congr
  intro x hx
  by_cases hxm : x = m
  · simp [hxm]
  · simp [hxm, List.contains_cons]

theorem removeEach_eq_filter :
    ∀ (used dt : List String), dt.Nodup → used.Nodup → (∀ n ∈ used, n ∈ dt) →
      removeEach dt used = some (dt.filter (fun x => !(used.contains x))) := by
  intro used
  induction used with
  | nil => intro dt _ _ _; simp [removeEach]
  | cons m rest ih =>
      intro dt hdt hmr hsub
      have hm : m ∈ dt := hsub m (List.mem_cons_self m rest)
      have hmnotin := (List.nodup_cons.mp hmr).1
      have hrestnd := (List.nodup_cons.mp hmr).2
      unfold removeEach
      rw [if_pos hm]
      have hrec := ih (dt.erase m) (hdt.erase m) hrestnd
        (fun n hn => (List.mem_erase_of_ne
          (fun he => hmnotin (by rw [he] at hn; exact hn))).mpr
          (hsub n (List.mem_cons_of_mem m hn)))
      rw [hrec, erase_filter_contains dt hdt m rest]

theorem head?_filter {α : Type} (p : α → Bool) :
    ∀ l : List α, (l.filter p).head? = l.find? p := by
  intro l
  induction l with
  | nil => rfl
  | cons a l ih => by_cases ha : p a <;> simp [List.filter_cons, List.find?_cons, ha, ih]

/-- Counterexample for C5: the on-disk names are never consulted.  With
a save batch of two tables both named "X" and the on-disk names
{"X", "X-2"}, the claim requires the second table to resolve to "X-3"
(the lowest suffix absent from batch and disk alike), but `save_config`
resolves it to "X-2" — `disambig` receives only the in-batch processed
names — and so overwrites the on-disk file "X-2" (the directory is
unchanged as a set of names, where the claim would have it grow by
"X-3"). -/
theorem save_config_ignores_disk_names :
    save_config [named "X", named "X"] [] = some [FsEvent.write "X", FsEvent.write "X-2"]
      ∧ applyEvents {"X", "X-2"} [FsEvent.write "X", FsEvent.write "X-2"] = {"X", "X-2"}
      ∧ ("X-3" : String) ∉ ({"X", "X-2"} : Finset String) := by
  refine ⟨by decide, ?_, by decide⟩
  rfl

/-- Claim C5 (amended): when a table's display name collides with an
already-processed name in the save batch, `save_config` renames it
consulting only the names already processed in that batch (on-disk
names are not consulted): the resolved name is the first candidate
among [want, want-2, ..., want-99] not among the batch names; in
particular desired "X" against processed names {"X", "X-2"} resolves to
"X-3", and with nothing processed to "X". -/
theorem disambig_first_unused_in_batch :
    (∀ (want : String) (used : List String), used.Nodup → (∀ n ∈ used, n ∈ dtab want) →
        disambig want used = (dtab want).find? (fun x => !(used.contains x)))
      ∧ disambig "X" ["X", "X-2"] = some "X-3"
      ∧ disambig "X" [] = some "X" := by
  refine ⟨?_, by decide, by decide⟩
  intro want used hnd hsub
  unfold disambig
  rw [removeEach_eq_filter used (dtab want) (dtab_nodup want) hnd hsub]
  simp [head?_filter]

/-- Witness for C5 (amended): the first conjunct applied at the spec's
own disambiguation example. -/
theorem disambig_first_unused_in_batch_witness :
    disambig "X" ["X", "X-2"] = (dtab "X").find? (fun x => !(["X", "X-2"].contains x)) :=
  disambig_first_unused_in_batch.1 "X" ["X", "X-2"] (by decide) (by decide)

/-- Counterexample for C9: a collision that follows a differently-named
table does not always abort.  In the batch [X-2, X, X], the collision
on "X" happens after the differently-named "X-2" was processed, yet
`save_config` completes (the earlier name happens to lie inside the
colliding name's candidate set, so `list.remove` succeeds), renaming
the third table to "X-3". -/
theorem save_config_inset_collision_no_abort :
    save_config [named "X-2", named "X", named "X"] []
      = some [FsEvent.write "X-2", FsEvent.write "X", FsEvent.write "X-3"] := by
  decide

/-- Claim C9 (amended): `disambig` returns a name only when every
already-used name lies in the candidate set {want, want-2, ...,
want-99}; it raises (modelled `none`) whenever some used name lies
outside that set, and also when the distinct used names exhaust all 99
candidates; consequently a save batch in which a collision occurs after
a table whose name lies outside the colliding name's candidate set was
already processed aborts `save_config` with an unhandled exception, as
the concrete batch [A, X, X] does. -/
theorem disambig_raises_on_foreign_names :
    (∀ (want : String) (used : List String) (s : String),
        disambig want used = some s → ∀ n ∈ used, n ∈ dtab want)
      ∧ (∀ (want : String) (used : List String),
          (∃ n ∈ used, n ∉ dtab want) → disambig want used = none)
      ∧ (∀ (want : String) (used : List String), used.Nodup →
          (∀ n ∈ dtab want, n ∈ used) → disambig want used = none)
      ∧ save_config [named "A", named "X", named "X"] [] = none := by
  refine ⟨?_, ?_, ?_, by decide⟩
  · intro want used s h n hn
    unfold disambig at h
    cases hre : removeEach (dtab want) used with
    | none => rw [hre] at h; simp at h
    | some dt' => exact removeEach_some_mem used (dtab want) dt' hre n hn
  · intro want used ⟨n, hn, hnot⟩
    unfold disambig
    rw [removeEach_none_of_not_mem used (dtab want) n hn hnot]
    rfl
  · intro want used hnd hcover
    by_cases hsub : ∀ n ∈ used, n ∈ dtab want
    · unfold disambig
      rw [removeEach_eq_filter used (dtab want) (dtab_nodup want) hnd hsub]
      have hnil : (dtab want).filter (fun x => !(used.contains x)) = [] := by
        rw [List.filter_eq_nil_iff]
        intro a ha
        have hmem : a ∈ used := hcover a ha
        simp [hmem]
      rw [hnil]
      rfl
    · push_neg at hsub
      obtain ⟨n, hn, hnot⟩ := hsub
      unfold disambig
      rw [removeEach_none_of_not_mem used (dtab want) n hn hnot]
      rfl

/-- Witness for C9 (amended): the first conjunct applied at a concrete
successful disambiguation. -/
theorem disambig_raises_on_foreign_names_witness : ("X" : String) ∈ dtab "X" :=
  disambig_raises_on_foreign_names.1 "X" ["X"] "X-2" (by decide) "X" (by decide)

theorem saveLoop_spec :
    ∀ (devices : List DeviceTable) (fta ftd : List String) (evs : List FsEvent)
      (ftd2 : List String),
      saveLoop devices fta ftd = some (evs, ftd2) →
      ∃ ws : List String, evs = ws.map FsEvent.write
        ∧ (ftd.Nodup → ftd2 = ftd.filter (fun n => !(ws.contains n))) := by
  intro devices
  induction devices with
  | nil =>
      intro fta ftd evs ftd2 h
      simp only [saveLoop, Option.some.injEq, Prod.mk.injEq] at h
      refine ⟨[], by simp [← h.1], ?_⟩
      intro _
      rw [← h.2]
      simp
  | cons d rest ih =>
      intro fta ftd evs ftd2 h
      unfold saveLoop at h
      cases hname : (if d.filename ∈ fta then disambig d.filename fta
          else some d.filename) with
      | none => rw [hname] at h; simp at h
      | some name =>
          rw [hname] at h
          simp only [Option.some_bind] at h
          cases hrec : saveLoop rest (fta ++ [name])
              (if name ∈ ftd then ftd.erase name else ftd) with
          | none => rw [hrec] at h; simp at h
          | some p =>
              obtain ⟨evs1, ftd1⟩ := p
              rw [hrec] at h
              simp only [Option.map_some', Option.some.injEq, Prod.mk.injEq] at h
              obtain ⟨ws1, hws1, hfil1⟩ := ih (fta ++ [name]) _ evs1 ftd1 hrec
              refine ⟨name :: ws1, ?_, ?_⟩
              · rw [← h.1, hws1]; rfl
              · intro hnd
                have hifnd : (if name ∈ ftd then ftd.erase name else ftd).Nodup := by
                  by_cases hc : name ∈ ftd
                  · rw [if_pos hc]; exact hnd.erase name
                  · rw [if_neg hc]; exact hnd
                have hifeq : (if name ∈ ftd then ftd.erase name else ftd)
                    = ftd.erase name := by
                  by_cases hc : name ∈ ftd
                  · rw [if_pos hc]
                  · rw [if_neg hc, List.erase_of_not_mem hc]
                have h1 := hfil1 hifnd
                rw [hifeq] at h1
                rw [← h.2, h1, erase_filter_contains ftd hnd name ws1]

theorem applyEvents_append (disk : Finset String) (a b : List FsEvent) :
    applyEvents disk (a ++ b) = applyEvents (applyEvents disk a) b := by
  unfold applyEvents
  exact List.foldl_append _ _ _ _

theorem mem_applyEvents_writes (name : String) :
    ∀ (ws : List String) (disk : Finset String), (name ∈ ws ∨ name ∈ disk) →
      name ∈ applyEvents disk (ws.map FsEvent.write) := by
  intro ws
  induction ws with
  | nil =>
      intro disk h
      rcases h with h | h
      · simp at h
      · simpa [applyEvents] using h
  | cons a ws ih =>
      intro disk h
      rw [List.map_cons]
      show name ∈ applyEvents (insert a disk) (ws.map FsEvent.write)
      apply ih
      rcases h with h | h
      · rcases List.mem_cons.mp h with h1 | h2
        · right; rw [h1]; exact Finset.mem_insert_self a disk
        · left; exact h2
      · right; exact Finset.mem_insert_of_mem h

theorem mem_applyEvents_deletes (name : String) :
    ∀ (rem : List String) (disk : Finset String), name ∈ disk → name ∉ rem →
      name ∈ applyEvents disk (rem.map FsEvent.delete) := by
  intro rem
  induction rem with
  | nil => intro disk h _; simpa [applyEvents] using h
  | cons a rem ih =>
      intro disk hmem hnot
      rw [List.map_cons]
      show name ∈ applyEvents (disk.erase a) (rem.map FsEvent.delete)
      apply ih
      · exact Finset.mem_erase.mpr
          ⟨fun he => hnot (he ▸ List.mem_cons_self a rem), hmem⟩
      · exact fun hc => hnot (List.mem_cons_of_mem a hc)

/-- Claim C6: on a pending-deletion set without duplicates,
`save_config` emits all its writes before any deletion, the deletions
are exactly the pending names it did not write (every written name is
removed from the pending set), and consequently every written name —
in particular a table removed and re-added under the same name within
the batch — is on disk after the whole trace is applied. -/
theorem save_config_write_then_delete (devices : List DeviceTable)
    (ftd : List String) (evs : List FsEvent) (hnd : ftd.Nodup)
    (h : save_config devices ftd = some evs) :
    ∃ ws rem : List String,
      evs = ws.map FsEvent.write ++ rem.map FsEvent.delete
        ∧ rem = ftd.filter (fun n => !(ws.contains n))
        ∧ ∀ (disk : Finset String) (name : String), name ∈ ws →
            name ∈ applyEvents disk evs := by
  unfold save_config at h
  cases hsl : saveLoop devices [] ftd with
  | none => rw [hsl] at h; simp at h
  | some p =>
      obtain ⟨evs1, ftd2⟩ := p
      rw [hsl] at h
      simp only [Option.map_some', Option.some.injEq] at h
      obtain ⟨ws, hws, hfil⟩ := saveLoop_spec devices [] ftd evs1 ftd2 hsl
      have hrem := hfil hnd
      refine ⟨ws, ftd2, ?_, hrem, ?_⟩
      · rw [← h, hws]
      · intro disk name hmem
        rw [← h, hws, applyEvents_append]
        apply mem_applyEvents_deletes
        · exact mem_applyEvents_writes name ws disk (Or.inl hmem)
        · rw [hrem]
          intro hc
          have hf := (List.mem_filter.mp hc).2
          simp [hmem] at hf

/-- Witness for C6: a batch saving one table named "X" while "X" is
pending deletion; the file is written and not deleted. -/
theorem save_config_write_then_delete_witness :
    ∃ ws rem : List String,
      [FsEvent.write "X"] = ws.map FsEvent.write ++ rem.map FsEvent.delete
        ∧ rem = ["X"].filter (fun n => !(ws.contains n))
        ∧ ∀ (disk : Finset String) (name : String), name ∈ ws →
            name ∈ applyEvents disk [FsEvent.write "X"] :=
  save_config_write_then_delete [named "X"] ["X"] [FsEvent.write "X"]
    (by decide) (by decide)

/-- Claim C7: for every trigger kind among phrase, script and folder,
`BindingRow.trigger` invokes the external sink synchronously exactly
once with the matching mode flag and the trigger value, leaves the
table untouched, and its entire result is independent of the sink's
outcome: a failing invocation (any exit status, any output) is
indistinguishable from a succeeding one, so no failure reaches the
dispatch loop. -/
theorem trigger_swallows_sink_outcome (sink : Sink) (r : BindingRow) (t : DeviceTable)
    (h : r.trigger_type = "phrase" ∨ r.trigger_type = "script" ∨ r.trigger_type = "folder") :
    (∀ sink' : Sink, r.trigger sink t = r.trigger sink' t)
      ∧ (r.trigger sink t).1 = t
      ∧ ∃ flag : String, (flag = "-p" ∨ flag = "-s" ∨ flag = "-f")
          ∧ (r.trigger sink t).2 = [["autokey-run", flag, r.trigger_data]] := by
  refine ⟨fun sink' => rfl, ?_, ?_⟩
  · rw [trigger_fst, if_neg]
    rcases h with h | h | h <;> rw [h] <;> decide
  · rcases h with h | h | h
    · exact ⟨"-p", Or.inl rfl, by unfold BindingRow.trigger; rw [if_pos h]⟩
    · refine ⟨"-s", Or.inr (Or.inl rfl), ?_⟩
      unfold BindingRow.trigger
      rw [if_neg (by rw [h]; decide), if_pos h]
    · refine ⟨"-f", Or.inr (Or.inr rfl), ?_⟩
      unfold BindingRow.trigger
      rw [if_neg (by rw [h]; decide), if_neg (by rw [h]; decide), if_pos h]

/-- Witness for C7: a phrase row fired through an always-failing sink;
the dispatch-visible result is exactly the one any sink yields. -/
theorem trigger_swallows_sink_outcome_witness :
    (∀ sink' : Sink,
        exRowPhrase.trigger failingSink exTable = exRowPhrase.trigger sink' exTable)
      ∧ (exRowPhrase.trigger failingSink exTable).1 = exTable
      ∧ ∃ flag : String, (flag = "-p" ∨ flag = "-s" ∨ flag = "-f")
          ∧ (exRowPhrase.trigger failingSink exTable).2
              = [["autokey-run", flag, exRowPhrase.trigger_data]] :=
  trigger_swallows_sink_outcome failingSink exRowPhrase exTable (Or.inl rfl)

theorem loadFiles_length :
    ∀ (l : List (String × List (List String))) (ts : List DeviceTable),
      loadFiles l = some ts → ts.length = l.length := by
  intro l
  induction l with
  | nil => intro ts h; simp [loadFiles] at h; simp [← h]
  | cons f rest ih =>
      intro ts h
      unfold loadFiles at h
      cases hp : DeviceTable.init.rCsv (csvStem f.1) f.2 with
      | none => rw [hp] at h; simp at h
      | some t =>
          rw [hp] at h
          simp only [Option.some_bind] at h
          cases hr : loadFiles rest with
          | none => rw [hr] at h; simp at h
          | some ts1 =>
              rw [hr] at h
              simp only [Option.map_some', Option.some.injEq] at h
              rw [← h]
              simp [ih ts1 hr]

theorem loadFiles_abort :
    ∀ (l : List (String × List (List String))) (f : String × List (List String)),
      f ∈ l → DeviceTable.init.rCsv (csvStem f.1) f.2 = none → loadFiles l = none := by
  intro l
  induction l with
  | nil => intro f hf _; simp at hf
  | cons g rest ih =>
      intro f hf hnone
      unfold loadFiles
      rcases List.mem_cons.mp hf with h1 | h2
      · rw [← h1, hnone]
        rfl
      · cases hp : DeviceTable.init.rCsv (csvStem g.1) g.2 with
        | none => rfl
        | some t => simp [ih f h2 hnone]

theorem loadFiles_forall :
    ∀ (l : List (String × List (List String))) (ts : List DeviceTable),
      loadFiles l = some ts →
      ∀ f ∈ l, ∃ t ∈ ts, DeviceTable.init.rCsv (csvStem f.1) f.2 = some t := by
  intro l
  induction l with
  | nil => intro ts _ f hf; simp at hf
  | cons g rest ih =>
      intro ts h f hf
      unfold loadFiles at h
      cases hp : DeviceTable.init.rCsv (csvStem g.1) g.2 with
      | none => rw [hp] at h; simp at h
      | some t =>
          rw [hp] at h
          simp only [Option.some_bind] at h
          cases hr : loadFiles rest with
          | none => rw [hr] at h; simp at h
          | some ts1 =>
              rw [hr] at h
              simp only [Option.map_some', Option.some.injEq] at h
              rcases List.mem_cons.mp hf with h1 | h2
              · exact ⟨t, by rw [← h]; exact List.mem_cons_self t ts1, by rw [h1]; exact hp⟩
              · obtain ⟨t1, ht1, hpt1⟩ := ih ts1 hr f h2
                exact ⟨t1, by rw [← h]; exact List.mem_cons_of_mem t ht1, hpt1⟩

/-- Counterexample for C8: `load_config` has no per-file isolation.  A
directory holding one corrupt file (a binding record with too few
fields, Python IndexError) between two valid files makes the whole load
raise — it does not yield exactly the two valid tables the claim
requires. -/
theorem load_config_corrupt_aborts :
    load_config [("a.csv", exSaved.wCsv), ("bad.csv", [["binding", "x"]]),
      ("c.csv", exSaved.wCsv)] = none := by
  decide

/-- Claim C8 (amended): `load_config` reads exactly the files with the
expected extension, producing one table per file when every file
parses (each such file yields its parsed table among the results); but
a parse failure on any one matching file propagates and aborts loading
the remaining files, rather than being isolated. -/
theorem load_config_no_isolation :
    (∀ (dir : List (String × List (List String))) (tables : List DeviceTable),
        load_config dir = some tables →
          tables.length = (dir.filter (fun f => pyEndsWith f.1 ".csv")).length)
      ∧ (∀ dir : List (String × List (List String)),
          (∃ f ∈ dir, pyEndsWith f.1 ".csv" = true
            ∧ DeviceTable.init.rCsv (csvStem f.1) f.2 = none) →
          load_config dir = none)
      ∧ (∀ (dir : List (String × List (List String))) (tables : List DeviceTable),
          load_config dir = some tables →
          ∀ f ∈ dir, pyEndsWith f.1 ".csv" = true →
            ∃ t ∈ tables, DeviceTable.init.rCsv (csvStem f.1) f.2 = some t) := by
  refine ⟨?_, ?_, ?_⟩
  · intro dir tables h
    exact loadFiles_length _ tables h
  · intro dir ⟨f, hf, hcsv, hnone⟩
    exact loadFiles_abort _ f (List.mem_filter.mpr ⟨hf, hcsv⟩) hnone
  · intro dir tables h f hf hcsv
    exact loadFiles_forall _ tables h f (List.mem_filter.mpr ⟨hf, hcsv⟩)

/-- Witness for C8 (amended): loading a one-file directory yields one
table. -/
theorem load_config_no_isolation_witness :
    ([exLoaded] : List DeviceTable).length
      = ([("kbd.csv", exSaved.wCsv)].filter (fun f => pyEndsWith f.1 ".csv")).length :=
  load_config_no_isolation.1 [("kbd.csv", exSaved.wCsv)] [exLoaded] (by decide)

end Macrobie
